import Mathlib

/-!
Shallow embedding of the statistics-aggregation and result-reporting layer of
`src/wrapper/src/libvmaf.cpp`: the `StatVector` sample collector, the `Result`
container with its score-aggregation policy, the quality-runner factory, and
the `compute_vmaf` C entry point that translates internal failures into
integer status codes.

Samples (`double` in the source) are modelled as exact rationals `ℚ`;
C++ exceptions are modelled by `Except Err`, where `Err.kind` distinguishes
the three exception categories caught at the entry point
(`VmafException`, `std::runtime_error`, `std::logic_error`).
`std::map<std::string, StatVector>` is modelled as an association list kept
sorted by key, matching the ordered-map semantics of `std::map`.
-/

namespace Vmaf

/-- The three exception categories that the `compute_vmaf` entry point
distinguishes: the domain-specific `VmafException`, `std::runtime_error`
(thrown e.g. by `StatVector::_assert_size`), and `std::logic_error`. -/
inductive ErrKind where
  | vmafException
  | runtimeError
  | logicError
deriving DecidableEq, Repr

/-- An exception value: its category and its `what()` message. -/
structure Err where
  kind : ErrKind
  msg : String
deriving DecidableEq, Repr

/-- The error thrown by `StatVector::_assert_size` on an empty series:
`throw std::runtime_error("StatVector size is 0.")`. -/
def emptySeriesErr : Err := ⟨ErrKind.runtimeError, "StatVector size is 0."⟩

/-- `StatVector`: an append-only collection of real-valued samples,
field `l` mirroring `std::vector<double> l`. -/
structure StatVector where
  l : List ℚ
deriving DecidableEq, Repr

namespace StatVector

/-- `StatVector::StatVector()`: the default constructor, empty sample list. -/
def init : StatVector := ⟨[]⟩

/-- `StatVector::getVector()`: returns a copy of the underlying sequence. -/
def getVector (s : StatVector) : List ℚ := s.l

/-- `StatVector::_assert_size()`: throws `std::runtime_error("StatVector size is 0.")`
when the sample list is empty, otherwise does nothing. -/
def assertSize (s : StatVector) : Except Err Unit :=
  if s.l.length = 0 then .error emptySeriesErr else .ok ()

/-- `StatVector::mean()`: `_assert_size`, then the sum of the samples divided
by their count. -/
def mean (s : StatVector) : Except Err ℚ := do
  s.assertSize
  pure (s.l.sum / (s.l.length : ℚ))

/-- `StatVector::minimum()`: `_assert_size`, then a fold that starts from
`l[0]` and replaces the accumulator whenever `e < min_`. -/
def minimum (s : StatVector) : Except Err ℚ := do
  s.assertSize
  pure (s.l.foldl (fun min_ e => if e < min_ then e else min_) (s.l.getD 0 0))

/-- `StatVector::harmonic_mean()`: `_assert_size`, then
`1 / (sum of 1/(e+1) / size) - 1`. -/
def harmonic_mean (s : StatVector) : Except Err ℚ := do
  s.assertSize
  let sum := (s.l.map (fun e => 1 / (e + 1))).sum
  pure (1 / (sum / (s.l.length : ℚ)) - 1)

/-- `StatVector::second_moment()`: `_assert_size`, then the average of the
squared samples. -/
def second_moment (s : StatVector) : Except Err ℚ := do
  s.assertSize
  let sum := (s.l.map (fun e => e ^ 2)).sum
  pure (sum / (s.l.length : ℚ))

/-- `StatVector::percentile(double perc)`: `_assert_size`; clamp `perc` into
`[0,100]` by two `if`s; sort a copy of the samples ascending; compute
`pos = perc * (size - 1) / 100` (the `size - 1` is `size_t` subtraction);
take `pos_left = floor pos`, `pos_right = ceil pos` (as integers); return
`sorted[pos_left]` when they coincide, otherwise the linear interpolation
`sorted[pos_left]*(pos_right - pos) + sorted[pos_right]*(pos - pos_left)`.
The sort operates on a local copy, so the object's own list is unchanged:
the returned pair carries the value and the (unchanged) object state. -/
def percentile (s : StatVector) (perc : ℚ) : Except Err ℚ × StatVector :=
  match s.assertSize with
  | .error e => (.error e, s)
  | .ok _ =>
    let perc := if perc < 0 then 0 else if perc > 100 then 100 else perc
    let sorted := List.insertionSort (· ≤ ·) s.l
    let pos : ℚ := perc * ((s.l.length - 1 : ℕ) : ℚ) / 100
    let pos_left : ℤ := ⌊pos⌋
    let pos_right : ℤ := ⌈pos⌉
    if pos_left = pos_right then
      (.ok (sorted.getD pos_left.toNat 0), s)
    else
      (.ok (sorted.getD pos_left.toNat 0 * (pos_right - pos)
            + sorted.getD pos_right.toNat 0 * (pos - pos_left)), s)

/-- `StatVector::var()`: `second_moment() - pow(mean(), 2)`; the empty-series
error of either sub-query propagates. -/
def var (s : StatVector) : Except Err ℚ := do
  let sm ← s.second_moment
  let m ← s.mean
  pure (sm - m ^ 2)

/-- `StatVector::std()`: `sqrt(var())`; the square root is taken in `ℝ`. -/
noncomputable def std (s : StatVector) : Except Err ℝ :=
  match s.var with
  | .ok v => .ok (Real.sqrt (v : ℝ))
  | .error e => .error e

/-- `StatVector::append(double e)`: push one sample at the back. -/
def append (s : StatVector) (e : ℚ) : StatVector := ⟨s.l ++ [e]⟩

/-- `StatVector::at(size_t idx)`: bounds-checked access; `std::vector::at`
throws `std::out_of_range`, a `std::logic_error`, on bad indices. -/
def at_ (s : StatVector) (idx : ℕ) : Except Err ℚ :=
  if h : idx < s.l.length then .ok (s.l.get ⟨idx, h⟩)
  else .error ⟨ErrKind.logicError, "vector::_M_range_check"⟩

/-- `StatVector::size()`: the number of samples. -/
def size (s : StatVector) : ℕ := s.l.length

end StatVector

/-- `ScoreAggregateMethod`: the scalar-aggregation policy of a `Result`. -/
inductive ScoreAggregateMethod where
  | MEAN
  | MINIMUM
  | HARMONIC_MEAN
deriving DecidableEq, Repr

/-- A `Result`: a `std::map<std::string, StatVector>` (modelled as an
association list sorted by key), the aggregation policy, and the frame
count. -/
structure Result where
  d : List (String × StatVector)
  score_aggregate_method : ScoreAggregateMethod
  num_frms : ℕ
deriving DecidableEq, Repr

namespace Result

/-- `Result::Result()`: policy initialised to `MEAN`; `num_frms` is left
uninitialised by the source constructor, so it is a parameter here. -/
def init (frms : ℕ) : Result := ⟨[], ScoreAggregateMethod.MEAN, frms⟩

/-- Lookup in the ordered map: the value bound to `key`, if present. -/
def mapFind (d : List (String × StatVector)) (key : String) : Option StatVector :=
  match d with
  | [] => none
  | (k, v) :: rest => if key = k then some v else mapFind rest key

/-- Insertion into the ordered map, keeping keys sorted and unique: this is
how `std::map::operator[]` places a new entry or rebinds an existing one. -/
def mapInsert (d : List (String × StatVector)) (key : String) (v : StatVector) :
    List (String × StatVector) :=
  match d with
  | [] => [(key, v)]
  | (k, w) :: rest =>
    if key < k then (key, v) :: (k, w) :: rest
    else if key = k then (key, v) :: rest
    else (k, w) :: mapInsert rest key v

/-- `Result::set_scores(key, scores)`: `d[key] = scores` inserts or
overwrites. -/
def set_scores (r : Result) (key : String) (scores : StatVector) : Result :=
  { r with d := mapInsert r.d key scores }

/-- `Result::get_scores(key)`: `return d[key]`. `std::map::operator[]`
default-constructs and inserts an empty `StatVector` when the key is absent,
then returns (a copy of) the mapped value; the possibly-grown map is the
second component. -/
def get_scores (r : Result) (key : String) : StatVector × Result :=
  match mapFind r.d key with
  | some sv => (sv, r)
  | none => (StatVector.init, { r with d := mapInsert r.d key StatVector.init })

/-- `Result::has_scores(key)`: `d.find(key) != d.end()`. -/
def has_scores (r : Result) (key : String) : Bool :=
  (mapFind r.d key).isSome

/-- `Result::get_score(key)`: fetches the series via `get_scores` (which may
insert an empty entry) and applies the configured aggregation policy:
`MINIMUM → minimum()`, `HARMONIC_MEAN → harmonic_mean()`, otherwise
`mean()`. -/
def get_score (r : Result) (key : String) : Except Err ℚ × Result :=
  let p := r.get_scores key
  let list := p.1
  (match r.score_aggregate_method with
   | ScoreAggregateMethod.MINIMUM => list.minimum
   | ScoreAggregateMethod.HARMONIC_MEAN => list.harmonic_mean
   | ScoreAggregateMethod.MEAN => list.mean,
   p.2)

/-- `Result::get_keys()`: walk the map in iteration order (ascending key
order for `std::map`) and collect the keys. -/
def get_keys (r : Result) : List String :=
  r.d.map Prod.fst

/-- `Result::get_num_frms()`. -/
def get_num_frms (r : Result) : ℕ := r.num_frms

/-- `Result::set_num_frms(n)`. -/
def set_num_frms (r : Result) (n : ℕ) : Result := { r with num_frms := n }

/-- `Result::setScoreAggregateMethod(m)`. -/
def setScoreAggregateMethod (r : Result) (m : ScoreAggregateMethod) : Result :=
  { r with score_aggregate_method := m }

/-- Well-formedness of the map representation: keys strictly ascending (the
invariant `std::map` maintains). -/
def WF (r : Result) : Prop :=
  (r.d.map Prod.fst).Pairwise (· < ·)

end Result

/-- The quality-runner variants: `VmafQualityRunner(path)` and
`BootstrapVmafQualityRunner(path)`, each holding the model path it was
constructed with. -/
inductive Runner where
  | standard (path : String)
  | bootstrap (path : String)
deriving DecidableEq, Repr

/-- Whether a runner is the bootstrap/confidence-interval variant. -/
def Runner.isBootstrap : Runner → Bool
  | .standard _ => false
  | .bootstrap _ => true

/-- The model path a runner was constructed with. -/
def Runner.path : Runner → String
  | .standard p => p
  | .bootstrap p => p

/-- `VmafModel`: the model descriptor fields the factory consults:
`path` and `enable_conf_interval`. -/
structure VmafModel where
  path : String
  enable_conf_interval : Bool
deriving DecidableEq, Repr

/-- `VmafQualityRunnerFactory::createVmafQualityRunner`: builds the
bootstrap variant when `enable_conf_interval` is set, otherwise the standard
variant, passing the descriptor's path to the constructor; the `unique_ptr`
is returned by value to the caller. -/
def createVmafQualityRunner (m : VmafModel) : Runner :=
  if m.enable_conf_interval then Runner.bootstrap m.path
  else Runner.standard m.path

/-- Modelled from the spec: the CPU capability enum of `cpu.h` (absent from
`src/`), "process-wide enumerated value (e.g., NONE / autodetected tier)". -/
inductive VmafCpu where
  | VMAF_CPU_NONE
  | VMAF_CPU_AVX
deriving DecidableEq, Repr

/-- The settings field the entry point consults: `disable_avx`. -/
structure VmafSettings where
  disable_avx : Bool
deriving DecidableEq, Repr

/-- The externally observable outcome of one `compute_vmaf` call: the
returned status, the value written through `vmaf_score` (`none` when the
pointer is left unwritten), the diagnostic printed before returning
(`none` when nothing is printed), and the final global `cpu` value. -/
structure ComputeOutcome where
  status : ℤ
  vmaf_score : Option ℚ
  diagnostic : Option String
  cpu : VmafCpu
deriving DecidableEq, Repr

/-- `compute_vmaf`: sets the global `cpu` from autodetection, overrides it to
`VMAF_CPU_NONE` when `disable_avx` is set, then runs the engine (`RunVmaf`,
external to this file, modelled as a function of the CPU state); on success
writes the score and returns 0; each caught exception category is printed
with its message and mapped to its status code: `VmafException → -2`,
`std::runtime_error → -3`, `std::logic_error → -4`. -/
def compute_vmaf (runVmaf : VmafCpu → Except Err ℚ) (settings : VmafSettings)
    (detected : VmafCpu) : ComputeOutcome :=
  let cpu := if settings.disable_avx then VmafCpu.VMAF_CPU_NONE else detected
  match runVmaf cpu with
  | .ok score => ⟨0, some score, none, cpu⟩
  | .error e =>
    match e.kind with
    | ErrKind.vmafException =>
        ⟨-2, none, some ("Caught VmafException: " ++ e.msg ++ "\n"), cpu⟩
    | ErrKind.runtimeError =>
        ⟨-3, none, some ("Caught runtime_error: " ++ e.msg ++ "\n"), cpu⟩
    | ErrKind.logicError =>
        ⟨-4, none, some ("Caught logic_error: " ++ e.msg ++ "\n"), cpu⟩

/-- The percentile algorithm as the spec words it: clamp `p` to `[0,100]`,
sort a copy ascending, `pos = p * (n - 1) / 100`, `lo = floor pos`,
`hi = ceil pos`; `sorted[lo]` when `lo = hi`, else
`sorted[lo]*(hi - pos) + sorted[hi]*(pos - lo)`. -/
def percentileSpec (l : List ℚ) (p : ℚ) : ℚ :=
  let q := max 0 (min p 100)
  let sorted := List.insertionSort (· ≤ ·) l
  let pos : ℚ := q * ((l.length - 1 : ℕ) : ℚ) / 100
  let lo : ℤ := ⌊pos⌋
  let hi : ℤ := ⌈pos⌉
  if lo = hi then sorted.getD lo.toNat 0
  else sorted.getD lo.toNat 0 * (hi - pos) + sorted.getD hi.toNat 0 * (pos - lo)

end Vmaf

namespace Vmaf

/-! Helper lemmas about the embedding, shared between the claim theorems. -/

theorem assertSize_ok {s : StatVector} (h : s.l ≠ []) : s.assertSize = .ok () := by
  simp [StatVector.assertSize, List.length_eq_zero, h]

theorem assertSize_empty {s : StatVector} (h : s.l = []) :
    s.assertSize = .error emptySeriesErr := by
  simp [StatVector.assertSize, List.length_eq_zero, h]

theorem minimum_empty {s : StatVector} (h : s.l = []) :
    s.minimum = .error emptySeriesErr := by
  simp [StatVector.minimum, assertSize_empty h]

theorem harmonic_mean_empty {s : StatVector} (h : s.l = []) :
    s.harmonic_mean = .error emptySeriesErr := by
  simp [StatVector.harmonic_mean, assertSize_empty h]

theorem mean_empty {s : StatVector} (h : s.l = []) :
    s.mean = .error emptySeriesErr := by
  simp [StatVector.mean, assertSize_empty h]

end Vmaf

/-- Claim C6: every statistic of `StatVector` other than `size` and `append`
(`mean`, `minimum`, `harmonic_mean`, `second_moment`, `var`, `std`,
`percentile`) fails on an empty series with the runtime-error kind produced
by `_assert_size` — a category distinct from the domain-specific
`VmafException` kind — and never returns a value. -/
theorem claim_C6 (s : Vmaf.StatVector) (h : s.l = []) :
    s.mean = .error Vmaf.emptySeriesErr ∧
    s.minimum = .error Vmaf.emptySeriesErr ∧
    s.harmonic_mean = .error Vmaf.emptySeriesErr ∧
    s.second_moment = .error Vmaf.emptySeriesErr ∧
    s.var = .error Vmaf.emptySeriesErr ∧
    s.std = .error Vmaf.emptySeriesErr ∧
    (∀ p : ℚ, (s.percentile p).1 = .error Vmaf.emptySeriesErr) ∧
    Vmaf.emptySeriesErr.kind = Vmaf.ErrKind.runtimeError ∧
    Vmaf.ErrKind.runtimeError ≠ Vmaf.ErrKind.vmafException := by
  have ha := Vmaf.assertSize_empty h
  refine ⟨Vmaf.mean_empty h, Vmaf.minimum_empty h, Vmaf.harmonic_mean_empty h,
    ?_, ?_, ?_, ?_, rfl, by simp⟩
  · simp [Vmaf.StatVector.second_moment, ha]
  · simp [Vmaf.StatVector.var, Vmaf.StatVector.second_moment, ha, Bind.bind, Except.bind]
  · simp [Vmaf.StatVector.std, Vmaf.StatVector.var, Vmaf.StatVector.second_moment, ha,
      Bind.bind, Except.bind]
  · intro p
    simp [Vmaf.StatVector.percentile, ha]

/-- Witness for C6 at the concrete empty series. -/
theorem claim_C6_witness :
    Vmaf.StatVector.init.mean = .error Vmaf.emptySeriesErr ∧
    Vmaf.StatVector.init.minimum = .error Vmaf.emptySeriesErr ∧
    Vmaf.StatVector.init.harmonic_mean = .error Vmaf.emptySeriesErr ∧
    Vmaf.StatVector.init.second_moment = .error Vmaf.emptySeriesErr ∧
    Vmaf.StatVector.init.var = .error Vmaf.emptySeriesErr ∧
    Vmaf.StatVector.init.std = .error Vmaf.emptySeriesErr ∧
    (∀ p : ℚ, (Vmaf.StatVector.init.percentile p).1 = .error Vmaf.emptySeriesErr) ∧
    Vmaf.emptySeriesErr.kind = Vmaf.ErrKind.runtimeError ∧
    Vmaf.ErrKind.runtimeError ≠ Vmaf.ErrKind.vmafException :=
  claim_C6 Vmaf.StatVector.init rfl

/-- Claim C8: the runner factory yields the bootstrap variant exactly when
the descriptor's confidence-interval flag is set, and the standard variant
otherwise, for every path (the empty string included); the produced runner
carries the descriptor's path. Sole ownership by the caller is inherent in
the by-value semantics of the embedding. -/
theorem claim_C8 (m : Vmaf.VmafModel) :
    (Vmaf.createVmafQualityRunner m).isBootstrap = m.enable_conf_interval ∧
    (Vmaf.createVmafQualityRunner m).path = m.path ∧
    (m.enable_conf_interval = true →
      Vmaf.createVmafQualityRunner m = Vmaf.Runner.bootstrap m.path) ∧
    (m.enable_conf_interval = false →
      Vmaf.createVmafQualityRunner m = Vmaf.Runner.standard m.path) := by
  cases hm : m.enable_conf_interval <;>
    simp [Vmaf.createVmafQualityRunner, hm, Vmaf.Runner.isBootstrap, Vmaf.Runner.path]

/-- Witness for C8 at two concrete descriptors with the empty path. -/
theorem claim_C8_witness :
    Vmaf.createVmafQualityRunner ⟨"", true⟩ = Vmaf.Runner.bootstrap "" ∧
    Vmaf.createVmafQualityRunner ⟨"", false⟩ = Vmaf.Runner.standard "" :=
  ⟨(claim_C8 ⟨"", true⟩).2.2.1 rfl, (claim_C8 ⟨"", false⟩).2.2.2 rfl⟩

/-- Claim C1: for every invocation of `compute_vmaf` — with the engine
modelled as a function of the selected CPU state — a successful engine run
writes the score through the output pointer and returns 0 with no
diagnostic; a failing run leaves the output pointer unwritten, returns
exactly -2 for `VmafException`, -3 for `std::runtime_error`, -4 for
`std::logic_error`, and emits a diagnostic containing the failure message
before returning; the status is always one of 0, -2, -3, -4, so no failure
escapes the entry point as anything but the integer code. -/
theorem claim_C1 (runVmaf : Vmaf.VmafCpu → Except Vmaf.Err ℚ)
    (settings : Vmaf.VmafSettings) (detected : Vmaf.VmafCpu) :
    ((Vmaf.compute_vmaf runVmaf settings detected).status = 0 ∨
     (Vmaf.compute_vmaf runVmaf settings detected).status = -2 ∨
     (Vmaf.compute_vmaf runVmaf settings detected).status = -3 ∨
     (Vmaf.compute_vmaf runVmaf settings detected).status = -4) ∧
    (∀ q : ℚ,
      runVmaf (if settings.disable_avx then Vmaf.VmafCpu.VMAF_CPU_NONE else detected) =
        .ok q →
      (Vmaf.compute_vmaf runVmaf settings detected).status = 0 ∧
      (Vmaf.compute_vmaf runVmaf settings detected).vmaf_score = some q ∧
      (Vmaf.compute_vmaf runVmaf settings detected).diagnostic = none) ∧
    (∀ e : Vmaf.Err,
      runVmaf (if settings.disable_avx then Vmaf.VmafCpu.VMAF_CPU_NONE else detected) =
        .error e →
      (Vmaf.compute_vmaf runVmaf settings detected).vmaf_score = none ∧
      (Vmaf.compute_vmaf runVmaf settings detected).status =
        (match e.kind with
         | Vmaf.ErrKind.vmafException => -2
         | Vmaf.ErrKind.runtimeError => -3
         | Vmaf.ErrKind.logicError => -4) ∧
      (Vmaf.compute_vmaf runVmaf settings detected).diagnostic =
        some ((match e.kind with
               | Vmaf.ErrKind.vmafException => "Caught VmafException: "
               | Vmaf.ErrKind.runtimeError => "Caught runtime_error: "
               | Vmaf.ErrKind.logicError => "Caught logic_error: ") ++ e.msg ++ "\n")) := by
  cases hr : runVmaf (if settings.disable_avx then Vmaf.VmafCpu.VMAF_CPU_NONE else detected) with
  | ok q =>
    refine ⟨Or.inl ?_, ?_, ?_⟩
    · simp [Vmaf.compute_vmaf, hr]
    · intro q' hq'
      cases hq'
      simp [Vmaf.compute_vmaf, hr]
    · intro e he
      cases he
  | error e =>
    refine ⟨?_, ?_, ?_⟩
    · cases hk : e.kind <;> simp [Vmaf.compute_vmaf, hr, hk]
    · intro q' hq'
      cases hq'
    · intro e' he'
      cases he'
      cases hk : e.kind <;> simp [Vmaf.compute_vmaf, hr, hk]

/-- Witness for C1: a concrete successful run and a concrete
`VmafException`-failing run of the entry point. -/
theorem claim_C1_witness :
    ((Vmaf.compute_vmaf (fun _ => .ok 5) ⟨false⟩ Vmaf.VmafCpu.VMAF_CPU_AVX).status = 0 ∧
     (Vmaf.compute_vmaf (fun _ => .ok 5) ⟨false⟩ Vmaf.VmafCpu.VMAF_CPU_AVX).vmaf_score =
       some 5 ∧
     (Vmaf.compute_vmaf (fun _ => .ok 5) ⟨false⟩ Vmaf.VmafCpu.VMAF_CPU_AVX).diagnostic =
       none) ∧
    ((Vmaf.compute_vmaf (fun _ => .error ⟨Vmaf.ErrKind.vmafException, "boom"⟩) ⟨true⟩
        Vmaf.VmafCpu.VMAF_CPU_AVX).vmaf_score = none ∧
     (Vmaf.compute_vmaf (fun _ => .error ⟨Vmaf.ErrKind.vmafException, "boom"⟩) ⟨true⟩
        Vmaf.VmafCpu.VMAF_CPU_AVX).status = -2 ∧
     (Vmaf.compute_vmaf (fun _ => .error ⟨Vmaf.ErrKind.vmafException, "boom"⟩) ⟨true⟩
        Vmaf.VmafCpu.VMAF_CPU_AVX).diagnostic =
       some "Caught VmafException: boom\n") := by
  constructor
  · exact (claim_C1 (fun _ => .ok 5) ⟨false⟩ Vmaf.VmafCpu.VMAF_CPU_AVX).2.1 5 rfl
  · have h := (claim_C1 (fun _ => .error ⟨Vmaf.ErrKind.vmafException, "boom"⟩) ⟨true⟩
      Vmaf.VmafCpu.VMAF_CPU_AVX).2.2 ⟨Vmaf.ErrKind.vmafException, "boom"⟩ rfl
    exact h

namespace Vmaf

theorem mapFind_mapInsert_self (d : List (String × StatVector)) (key : String)
    (v : StatVector) : Result.mapFind (Result.mapInsert d key v) key = some v := by
  induction d with
  | nil => simp [Result.mapInsert, Result.mapFind]
  | cons hd tl ih =>
    obtain ⟨k, w⟩ := hd
    by_cases h1 : key < k
    · simp [Result.mapInsert, Result.mapFind, h1]
    · by_cases h2 : key = k
      · simp [Result.mapInsert, Result.mapFind, h1, h2]
      · simp [Result.mapInsert, Result.mapFind, h1, h2, ih]

theorem mapFind_isSome_iff_mem_keys (d : List (String × StatVector)) (key : String) :
    (Result.mapFind d key).isSome ↔ key ∈ d.map Prod.fst := by
  induction d with
  | nil => simp [Result.mapFind]
  | cons hd tl ih =>
    obtain ⟨k, w⟩ := hd
    by_cases h : key = k
    · simp [Result.mapFind, h]
    · simp [Result.mapFind, h, ih]

theorem keys_mapInsert (d : List (String × StatVector)) (key : String) (v : StatVector) :
    ∀ x ∈ (Result.mapInsert d key v).map Prod.fst, x = key ∨ x ∈ d.map Prod.fst := by
  induction d with
  | nil => simp [Result.mapInsert]
  | cons hd tl ih =>
    obtain ⟨k, w⟩ := hd
    intro x hx
    by_cases h1 : key < k
    · simp [Result.mapInsert, h1] at hx
      rcases hx with h | h | h
      · exact Or.inl h
      · exact Or.inr (by simp [h])
      · exact Or.inr (by simp [h])
    · by_cases h2 : key = k
      · subst h2
        simp [Result.mapInsert, h1] at hx
        rcases hx with h | h
        · exact Or.inl h
        · exact Or.inr (by simp [h])
      · simp [Result.mapInsert, h1, h2] at hx
        rcases hx with h | h
        · exact Or.inr (by simp [h])
        · rcases ih x (by simpa using h) with h' | h'
          · exact Or.inl h'
          · exact Or.inr (by simp [h'])

theorem pairwise_keys_mapInsert {d : List (String × StatVector)}
    (hd : (d.map Prod.fst).Pairwise (· < ·)) (key : String) (v : StatVector) :
    ((Result.mapInsert d key v).map Prod.fst).Pairwise (· < ·) := by
  induction d with
  | nil => simp [Result.mapInsert]
  | cons p tl ih =>
    obtain ⟨k, w⟩ := p
    simp only [List.map_cons, List.pairwise_cons] at hd
    obtain ⟨hk, htl⟩ := hd
    by_cases h1 : key < k
    · simp only [Result.mapInsert, if_pos h1, List.map_cons, List.pairwise_cons]
      refine ⟨?_, hk, htl⟩
      intro b hb
      simp only [List.map_cons, List.mem_cons] at hb
      rcases hb with hb | hb
      · exact hb ▸ h1
      · exact lt_trans h1 (hk b hb)
    · by_cases h2 : key = k
      · subst h2
        have hrw : Result.mapInsert ((key, w) :: tl) key v = (key, v) :: tl := by
          simp [Result.mapInsert, h1]
        rw [hrw]
        simp only [List.map_cons, List.pairwise_cons]
        exact ⟨hk, htl⟩
      · simp only [Result.mapInsert, if_neg h1, if_neg h2, List.map_cons,
          List.pairwise_cons]
        refine ⟨?_, ih htl⟩
        intro b hb
        rcases keys_mapInsert tl key v b (by simpa using hb) with hb' | hb'
        · subst hb'
          rcases lt_trichotomy b k with h | h | h
          · exact absurd h h1
          · exact absurd h h2
          · exact h
        · exact hk b hb'

theorem WF_set_scores {r : Result} (h : r.WF) (key : String) (v : StatVector) :
    (r.set_scores key v).WF :=
  pairwise_keys_mapInsert h key v

theorem WF_get_scores {r : Result} (h : r.WF) (key : String) :
    (r.get_scores key).2.WF := by
  unfold Result.get_scores
  cases hf : Result.mapFind r.d key with
  | some sv => exact h
  | none => exact pairwise_keys_mapInsert h key StatVector.init

end Vmaf

/-- Claim C9: fetching the scores of a key that was never set does not fail:
`get_scores` yields the default-constructed empty series, inserts it into
the result's map as a side effect, and afterwards `has_scores` is true and
the key appears in `get_keys`, even though `set_scores` was never called
for it. -/
theorem claim_C9 (r : Vmaf.Result) (key : String) (h : r.has_scores key = false) :
    (r.get_scores key).1 = Vmaf.StatVector.init ∧
    Vmaf.Result.mapFind (r.get_scores key).2.d key = some Vmaf.StatVector.init ∧
    (r.get_scores key).2.has_scores key = true ∧
    key ∈ (r.get_scores key).2.get_keys := by
  have hf : Vmaf.Result.mapFind r.d key = none := by
    cases hf' : Vmaf.Result.mapFind r.d key with
    | none => rfl
    | some sv => simp [Vmaf.Result.has_scores, hf'] at h
  have hins : Vmaf.Result.mapFind (Vmaf.Result.mapInsert r.d key Vmaf.StatVector.init)
      key = some Vmaf.StatVector.init :=
    Vmaf.mapFind_mapInsert_self r.d key Vmaf.StatVector.init
  refine ⟨?_, ?_, ?_, ?_⟩
  · simp [Vmaf.Result.get_scores, hf]
  · simp [Vmaf.Result.get_scores, hf, hins]
  · simp [Vmaf.Result.get_scores, Vmaf.Result.has_scores, hf, hins]
  · have := (Vmaf.mapFind_isSome_iff_mem_keys
      (Vmaf.Result.mapInsert r.d key Vmaf.StatVector.init) key).1 (by simp [hins])
    simpa [Vmaf.Result.get_scores, Vmaf.Result.get_keys, hf] using this

/-- Witness for C9: a fresh result queried for an unset key. -/
theorem claim_C9_witness :
    ((Vmaf.Result.init 0).get_scores "vmaf").1 = Vmaf.StatVector.init ∧
    Vmaf.Result.mapFind ((Vmaf.Result.init 0).get_scores "vmaf").2.d "vmaf" =
      some Vmaf.StatVector.init ∧
    ((Vmaf.Result.init 0).get_scores "vmaf").2.has_scores "vmaf" = true ∧
    "vmaf" ∈ ((Vmaf.Result.init 0).get_scores "vmaf").2.get_keys :=
  claim_C9 (Vmaf.Result.init 0) "vmaf" rfl

/-- Claim C10: for every result whose map satisfies the `std::map` ordering
invariant, `get_keys` lists the metric names in strictly ascending
lexicographic order (hence without duplicates), and a key appears in the
returned list exactly when the map holds an entry for it. -/
theorem claim_C10 (r : Vmaf.Result) (h : r.WF) :
    r.get_keys.Pairwise (· < ·) ∧
    (∀ k : String, k ∈ r.get_keys ↔ (Vmaf.Result.mapFind r.d k).isSome = true) := by
  constructor
  · exact h
  · intro k
    exact (Vmaf.mapFind_isSome_iff_mem_keys r.d k).symm

/-- Witness for C10: a result populated with two keys through `set_scores`,
well-formed by construction. -/
theorem claim_C10_witness :
    (((Vmaf.Result.init 0).set_scores "adm" ⟨[1]⟩).set_scores "vmaf" ⟨[2]⟩).get_keys.Pairwise
      (· < ·) ∧
    (∀ k : String,
      k ∈ (((Vmaf.Result.init 0).set_scores "adm" ⟨[1]⟩).set_scores "vmaf" ⟨[2]⟩).get_keys ↔
      (Vmaf.Result.mapFind
        (((Vmaf.Result.init 0).set_scores "adm" ⟨[1]⟩).set_scores "vmaf" ⟨[2]⟩).d
        k).isSome = true) :=
  claim_C10 (((Vmaf.Result.init 0).set_scores "adm" ⟨[1]⟩).set_scores "vmaf" ⟨[2]⟩)
    (Vmaf.WF_set_scores (Vmaf.WF_set_scores (by simp [Vmaf.Result.init, Vmaf.Result.WF])
      "adm" ⟨[1]⟩) "vmaf" ⟨[2]⟩)

/-- Claim C7: `get_score` applies the configured aggregation policy to the
series bound to the key — `minimum()` under MINIMUM, `harmonic_mean()` under
HARMONIC_MEAN, `mean()` otherwise (MEAN being the policy a freshly
constructed result starts with) — and propagates the empty-series error when
the series has no samples; concretely, on the series `[3,1,2]` it returns 1
under MINIMUM and 2 under MEAN. -/
theorem claim_C7 (r : Vmaf.Result) (key : String) :
    (r.get_score key =
      ((match r.score_aggregate_method with
        | Vmaf.ScoreAggregateMethod.MINIMUM => (r.get_scores key).1.minimum
        | Vmaf.ScoreAggregateMethod.HARMONIC_MEAN => (r.get_scores key).1.harmonic_mean
        | Vmaf.ScoreAggregateMethod.MEAN => (r.get_scores key).1.mean),
       (r.get_scores key).2)) ∧
    ((r.get_scores key).1.l = [] →
      (r.get_score key).1 = .error Vmaf.emptySeriesErr) ∧
    (∀ frms : ℕ, (Vmaf.Result.init frms).score_aggregate_method =
      Vmaf.ScoreAggregateMethod.MEAN) ∧
    ((((Vmaf.Result.init 0).set_scores "vmaf" ⟨[3, 1, 2]⟩).setScoreAggregateMethod
        Vmaf.ScoreAggregateMethod.MINIMUM).get_score "vmaf").1 = .ok 1 ∧
    (((Vmaf.Result.init 0).set_scores "vmaf" ⟨[3, 1, 2]⟩).get_score "vmaf").1 = .ok 2 := by
  refine ⟨rfl, ?_, fun _ => rfl, by rfl, ?_⟩
  · intro hempty
    cases hm : r.score_aggregate_method <;>
      simp [Vmaf.Result.get_score, hm, Vmaf.minimum_empty hempty,
        Vmaf.harmonic_mean_empty hempty, Vmaf.mean_empty hempty]
  · show Vmaf.StatVector.mean ⟨[3, 1, 2]⟩ = .ok 2
    simp [Vmaf.StatVector.mean, Vmaf.assertSize_ok (by simp : ([3,1,2] : List ℚ) ≠ [])]
    norm_num

/-- Witness for C7: a fresh result queried for an unset key propagates the
empty-series error. -/
theorem claim_C7_witness :
    (((Vmaf.Result.init 0).get_score "x").1 = .error Vmaf.emptySeriesErr) ∧
    ((((Vmaf.Result.init 0).set_scores "vmaf" ⟨[3, 1, 2]⟩).setScoreAggregateMethod
        Vmaf.ScoreAggregateMethod.MINIMUM).get_score "vmaf").1 = .ok 1 :=
  ⟨(claim_C7 (Vmaf.Result.init 0) "x").2.1 rfl,
   (claim_C7 (Vmaf.Result.init 0) "x").2.2.2.1⟩

namespace Vmaf

theorem clamp_eq (p : ℚ) :
    (if p < 0 then 0 else if p > 100 then 100 else p) = max 0 (min p 100) := by
  rcases lt_or_le p 0 with h0 | h0
  · rw [if_pos h0, min_eq_left (by linarith : p ≤ 100), max_eq_left (le_of_lt h0)]
  · rw [if_neg (not_lt.mpr h0)]
    rcases le_or_lt p 100 with h1 | h1
    · rw [if_neg (not_lt.mpr h1), min_eq_left h1, max_eq_right h0]
    · rw [if_pos h1, min_eq_right (le_of_lt h1),
        max_eq_right (by norm_num : (0 : ℚ) ≤ 100)]

end Vmaf

/-- Claim C2: on every non-empty series, `percentile p` computes exactly the
spec's algorithm — clamp `p` to `[0,100]`, sort a copy ascending, take
`pos = p * (n - 1) / 100`, `lo = floor pos`, `hi = ceil pos`, and return
`sorted[lo]` when `lo = hi`, else
`sorted[lo]*(hi - pos) + sorted[hi]*(pos - lo)` — and the series itself is
left unchanged, the sort having operated on a copy. -/
theorem claim_C2 (s : Vmaf.StatVector) (p : ℚ) (h : s.l ≠ []) :
    (s.percentile p).1 = .ok (Vmaf.percentileSpec s.l p) ∧ (s.percentile p).2 = s := by
  constructor
  · simp only [Vmaf.StatVector.percentile, Vmaf.assertSize_ok h, Vmaf.clamp_eq,
      Vmaf.percentileSpec, apply_ite Prod.fst]
    split_ifs <;> rfl
  · simp only [Vmaf.StatVector.percentile, Vmaf.assertSize_ok h, apply_ite Prod.snd,
      ite_self]

/-- Witness for C2 at the series `[1,2,3,4]` and `p = 25`. -/
theorem claim_C2_witness :
    ((Vmaf.StatVector.mk [1, 2, 3, 4]).percentile 25).1 =
      .ok (Vmaf.percentileSpec [1, 2, 3, 4] 25) ∧
    ((Vmaf.StatVector.mk [1, 2, 3, 4]).percentile 25).2 =
      Vmaf.StatVector.mk [1, 2, 3, 4] :=
  claim_C2 (Vmaf.StatVector.mk [1, 2, 3, 4]) 25 (by simp)

/-- Claim C4: on every non-empty series, `harmonic_mean` returns
`1 / (average of 1/(x+1)) - 1`, the shifted harmonic mean; when the samples
are non-negative (a zero being allowed among them), every reciprocal taken
by the computation has a non-zero — indeed positive — denominator, so no
division error arises and the returned value is an ordinary (finite)
rational. -/
theorem claim_C4 (s : Vmaf.StatVector) (h : s.l ≠ []) :
    s.harmonic_mean =
      .ok (1 / ((s.l.map (fun x => 1 / (x + 1))).sum / (s.l.length : ℚ)) - 1) ∧
    ((∀ x ∈ s.l, 0 ≤ x) → (0 : ℚ) ∈ s.l →
      (∀ x ∈ s.l, x + 1 ≠ 0) ∧
      0 < (s.l.map (fun x => 1 / (x + 1))).sum / (s.l.length : ℚ)) := by
  constructor
  · unfold Vmaf.StatVector.harmonic_mean
    rw [Vmaf.assertSize_ok h]
    rfl
  · intro hnn _
    have hden : ∀ x ∈ s.l, x + 1 ≠ 0 := fun x hx => by
      have := hnn x hx
      positivity
    refine ⟨hden, ?_⟩
    have hsum : 0 < (s.l.map (fun x => 1 / (x + 1))).sum := by
      apply List.sum_pos
      · intro a ha
        obtain ⟨x, hx, rfl⟩ := List.mem_map.mp ha
        have := hnn x hx
        positivity
      · simpa using h
    have hlen : 0 < (s.l.length : ℚ) := by
      have : 0 < s.l.length := List.length_pos.mpr h
      exact_mod_cast this
    exact div_pos hsum hlen

/-- Witness for C4 at the series `[0,1,2]`, which contains a zero. -/
theorem claim_C4_witness :
    (Vmaf.StatVector.mk [0, 1, 2]).harmonic_mean =
      .ok (1 / ((([0, 1, 2] : List ℚ).map (fun x => 1 / (x + 1))).sum /
        (([0, 1, 2] : List ℚ).length : ℚ)) - 1) ∧
    ((∀ x ∈ ([0, 1, 2] : List ℚ), 0 ≤ x) → (0 : ℚ) ∈ ([0, 1, 2] : List ℚ) →
      (∀ x ∈ ([0, 1, 2] : List ℚ), x + 1 ≠ 0) ∧
      0 < (([0, 1, 2] : List ℚ).map (fun x => 1 / (x + 1))).sum /
        (([0, 1, 2] : List ℚ).length : ℚ)) :=
  claim_C4 (Vmaf.StatVector.mk [0, 1, 2]) (by simp)

namespace Vmaf

theorem sum_sq_dev (l : List ℚ) (m : ℚ) :
    (l.map (fun x => (x - m) ^ 2)).sum
      = (l.map (fun x => x ^ 2)).sum - 2 * m * l.sum + l.length * m ^ 2 := by
  induction l with
  | nil => simp
  | cons a t ih =>
    simp only [List.map_cons, List.sum_cons, List.length_cons, ih]
    push_cast
    ring

theorem moment_diff_eq_avg_sq_dev {l : List ℚ} (h : l ≠ []) :
    (l.map (fun x => x ^ 2)).sum / (l.length : ℚ) - (l.sum / (l.length : ℚ)) ^ 2
      = (l.map (fun x => (x - l.sum / (l.length : ℚ)) ^ 2)).sum / (l.length : ℚ) := by
  have hn : (l.length : ℚ) ≠ 0 := by
    have : 0 < l.length := List.length_pos.mpr h
    exact_mod_cast Nat.pos_iff_ne_zero.mp this
  rw [sum_sq_dev]
  field_simp
  ring

end Vmaf

/-- Claim C5: on every non-empty series, `second_moment` is the average of
the squared samples, `mean` the arithmetic mean, `var` equals exactly
`second_moment - mean^2` (the biased moment-difference formula), this value
is non-negative (it equals the average squared deviation from the mean),
and `std` is the square root of `var`. -/
theorem claim_C5 (s : Vmaf.StatVector) (h : s.l ≠ []) :
    s.second_moment = .ok ((s.l.map (fun x => x ^ 2)).sum / (s.l.length : ℚ)) ∧
    s.mean = .ok (s.l.sum / (s.l.length : ℚ)) ∧
    s.var = .ok ((s.l.map (fun x => x ^ 2)).sum / (s.l.length : ℚ)
      - (s.l.sum / (s.l.length : ℚ)) ^ 2) ∧
    0 ≤ (s.l.map (fun x => x ^ 2)).sum / (s.l.length : ℚ)
      - (s.l.sum / (s.l.length : ℚ)) ^ 2 ∧
    s.std = .ok (Real.sqrt (((s.l.map (fun x => x ^ 2)).sum / (s.l.length : ℚ)
      - (s.l.sum / (s.l.length : ℚ)) ^ 2 : ℚ) : ℝ)) := by
  have hsm : s.second_moment =
      .ok ((s.l.map (fun x => x ^ 2)).sum / (s.l.length : ℚ)) := by
    simp [Vmaf.StatVector.second_moment, Vmaf.assertSize_ok h]
  have hm : s.mean = .ok (s.l.sum / (s.l.length : ℚ)) := by
    simp [Vmaf.StatVector.mean, Vmaf.assertSize_ok h]
  have hv : s.var = .ok ((s.l.map (fun x => x ^ 2)).sum / (s.l.length : ℚ)
      - (s.l.sum / (s.l.length : ℚ)) ^ 2) := by
    simp [Vmaf.StatVector.var, hsm, hm, Bind.bind, Except.bind, Pure.pure, Except.pure]
  have hnn : 0 ≤ (s.l.map (fun x => x ^ 2)).sum / (s.l.length : ℚ)
      - (s.l.sum / (s.l.length : ℚ)) ^ 2 := by
    rw [Vmaf.moment_diff_eq_avg_sq_dev h]
    apply div_nonneg
    · apply List.sum_nonneg
      intro a ha
      obtain ⟨x, _, rfl⟩ := List.mem_map.mp ha
      positivity
    · positivity
  refine ⟨hsm, hm, hv, hnn, ?_⟩
  rw [Vmaf.StatVector.std, hv]

/-- Witness for C5 at the series `[1,2]`. -/
theorem claim_C5_witness :
    (Vmaf.StatVector.mk [1, 2]).second_moment =
      .ok ((([1, 2] : List ℚ).map (fun x => x ^ 2)).sum / (([1, 2] : List ℚ).length : ℚ)) ∧
    (Vmaf.StatVector.mk [1, 2]).mean =
      .ok (([1, 2] : List ℚ).sum / (([1, 2] : List ℚ).length : ℚ)) ∧
    (Vmaf.StatVector.mk [1, 2]).var =
      .ok ((([1, 2] : List ℚ).map (fun x => x ^ 2)).sum / (([1, 2] : List ℚ).length : ℚ)
        - (([1, 2] : List ℚ).sum / (([1, 2] : List ℚ).length : ℚ)) ^ 2) ∧
    0 ≤ (([1, 2] : List ℚ).map (fun x => x ^ 2)).sum / (([1, 2] : List ℚ).length : ℚ)
      - (([1, 2] : List ℚ).sum / (([1, 2] : List ℚ).length : ℚ)) ^ 2 ∧
    (Vmaf.StatVector.mk [1, 2]).std =
      .ok (Real.sqrt (((([1, 2] : List ℚ).map (fun x => x ^ 2)).sum /
        (([1, 2] : List ℚ).length : ℚ)
        - (([1, 2] : List ℚ).sum / (([1, 2] : List ℚ).length : ℚ)) ^ 2 : ℚ) : ℝ)) :=
  claim_C5 (Vmaf.StatVector.mk [1, 2]) (by simp)

namespace Vmaf

theorem getD_zero_mem {s : List ℚ} (h : s ≠ []) : s.getD 0 0 ∈ s := by
  cases s with
  | nil => exact absurd rfl h
  | cons a t => simp

theorem getD_last_mem {s : List ℚ} (h : s ≠ []) : s.getD (s.length - 1) 0 ∈ s := by
  induction s with
  | nil => exact absurd rfl h
  | cons a t ih =>
    cases t with
    | nil => simp
    | cons b t2 =>
      have hstep : (a :: b :: t2).getD ((a :: b :: t2).length - 1) 0
          = (b :: t2).getD ((b :: t2).length - 1) 0 := by
        simp [List.getD_cons_succ]
      rw [hstep]
      exact List.mem_cons_of_mem a (ih (by simp))

theorem sorted_head_le {s : List ℚ} (hs : s.Sorted (· ≤ ·)) {x : ℚ} (hx : x ∈ s) :
    s.getD 0 0 ≤ x := by
  cases s with
  | nil => simp at hx
  | cons a t =>
    rw [List.getD_cons_zero]
    rcases List.mem_cons.mp hx with rfl | hx2
    · exact le_refl x
    · exact List.rel_of_sorted_cons hs x hx2

theorem le_sorted_last {s : List ℚ} (hs : s.Sorted (· ≤ ·)) {x : ℚ} (hx : x ∈ s) :
    x ≤ s.getD (s.length - 1) 0 := by
  induction s with
  | nil => simp at hx
  | cons a t ih =>
    cases t with
    | nil =>
      rcases List.mem_cons.mp hx with rfl | hx2
      · simp
      · simp at hx2
    | cons b t2 =>
      have hstep : (a :: b :: t2).getD ((a :: b :: t2).length - 1) 0
          = (b :: t2).getD ((b :: t2).length - 1) 0 := by
        simp [List.getD_cons_succ]
      rw [hstep]
      rcases List.mem_cons.mp hx with rfl | hx2
      · exact List.rel_of_sorted_cons hs _ (getD_last_mem (by simp))
      · exact ih hs.of_cons hx2

end Vmaf

/-- Claim C3: on every non-empty series, `percentile 0` returns the minimum
sample and `percentile 100` the maximum sample (stated as: a value that
belongs to the series and bounds every sample from below, respectively
above); and on a single-sample series, `percentile p` returns that sample
for every `p` in `[0,100]`. -/
theorem claim_C3 :
    (∀ s : Vmaf.StatVector, s.l ≠ [] →
      (∃ mn, (s.percentile 0).1 = .ok mn ∧ mn ∈ s.l ∧ ∀ x ∈ s.l, mn ≤ x) ∧
      (∃ mx, (s.percentile 100).1 = .ok mx ∧ mx ∈ s.l ∧ ∀ x ∈ s.l, x ≤ mx)) ∧
    (∀ a p : ℚ, 0 ≤ p → p ≤ 100 →
      ((Vmaf.StatVector.mk [a]).percentile p).1 = .ok a) := by
  constructor
  · intro s h
    have hperm := List.perm_insertionSort (· ≤ ·) s.l
    have hsorted := List.sorted_insertionSort (· ≤ ·) s.l
    have hne : List.insertionSort (· ≤ ·) s.l ≠ [] := by
      intro he
      apply h
      have hlen := congrArg List.length he
      rw [List.length_insertionSort] at hlen
      exact List.length_eq_zero.mp hlen
    constructor
    · refine ⟨(List.insertionSort (· ≤ ·) s.l).getD 0 0, ?_, ?_, ?_⟩
      · simp only [Vmaf.StatVector.percentile, Vmaf.assertSize_ok h]
        norm_num
      · exact hperm.mem_iff.mp (Vmaf.getD_zero_mem hne)
      · intro x hx
        exact Vmaf.sorted_head_le hsorted (hperm.mem_iff.mpr hx)
    · refine ⟨(List.insertionSort (· ≤ ·) s.l).getD (s.l.length - 1) 0, ?_, ?_, ?_⟩
      · simp only [Vmaf.StatVector.percentile, Vmaf.assertSize_ok h]
        norm_num
      · have hlen : s.l.length - 1 = (List.insertionSort (· ≤ ·) s.l).length - 1 := by
          rw [List.length_insertionSort]
        rw [hlen]
        exact hperm.mem_iff.mp (Vmaf.getD_last_mem hne)
      · intro x hx
        have hle := Vmaf.le_sorted_last hsorted (hperm.mem_iff.mpr hx)
        rwa [List.length_insertionSort] at hle
  · intro a p _ _
    simp only [Vmaf.StatVector.percentile,
      Vmaf.assertSize_ok (by simp : (Vmaf.StatVector.mk [a]).l ≠ [])]
    norm_num [List.insertionSort, List.orderedInsert]

/-- Witness for C3 at the series `[3,1,2]` and the single-sample series
`[7]` with `p = 50`. -/
theorem claim_C3_witness :
    ((∃ mn, ((Vmaf.StatVector.mk [3, 1, 2]).percentile 0).1 = .ok mn ∧
        mn ∈ ([3, 1, 2] : List ℚ) ∧ ∀ x ∈ ([3, 1, 2] : List ℚ), mn ≤ x) ∧
     (∃ mx, ((Vmaf.StatVector.mk [3, 1, 2]).percentile 100).1 = .ok mx ∧
        mx ∈ ([3, 1, 2] : List ℚ) ∧ ∀ x ∈ ([3, 1, 2] : List ℚ), x ≤ mx)) ∧
    ((Vmaf.StatVector.mk [7]).percentile 50).1 = .ok 7 :=
  ⟨claim_C3.1 (Vmaf.StatVector.mk [3, 1, 2]) (by simp),
   claim_C3.2 7 50 (by norm_num) (by norm_num)⟩
